import Mathlib

/-!
Verification of the Notion → static-site event sync pipeline of
Coimbra-Tech-Afterhours.github.io.

The repository contains two near-duplicate fetch scripts
(`scripts/fetch-events-from-notion.mjs`, called `FetchEvents` below, and an
unnamed variant with status reconciliation, called `FetchSync` below) and two
near-duplicate staleness checkers (`scripts/check-notion-updates.mjs`, called
`CheckUpdates` below, and an unnamed variant, called `CheckUpdatesV0` below).

The JavaScript data values that flow through the pipeline (Notion property
payloads, mapped event objects, the published `events.json` artifact) are
modelled by the inductive type `Json` below.  JavaScript numbers are modelled
as integers (the numeric payloads the pipeline handles are dates, counts and
plain numeric fields; floating-point serialization is out of scope).  The
platform built-ins `JSON.stringify` (compact and two-space pretty form) and
`JSON.parse` are modelled by executable functions `stringify`,
`prettyStringify` and `parseJson`, and the parser is genuinely a
character-level scanner, not an inverse taken by definition.
-/

/-- A JavaScript/JSON value.  Object fields keep insertion order, as
JavaScript objects and `JSON.parse` do for string keys. -/
inductive Json where
  | null : Json
  | bool (b : Bool) : Json
  | num (n : Int) : Json
  | str (s : String) : Json
  | arr (elems : List Json) : Json
  | obj (fields : List (String × Json)) : Json

/-! ## Sizes used for parser fuel accounting -/

mutual

/-- A small structural size of a `Json` value: every scalar counts 1,
independent of its numeric magnitude (unlike the automatic `sizeOf`). -/
def szJ : Json → Nat
  | .arr xs => 1 + szL xs
  | .obj fs => 1 + szF fs
  | _ => 1

/-- Size of a list of array elements. -/
def szL : List Json → Nat
  | [] => 1
  | x :: xs => 1 + szJ x + szL xs

/-- Size of a list of object fields. -/
def szF : List (String × Json) → Nat
  | [] => 1
  | (_, v) :: fs => 1 + szJ v + szF fs

end

/-! ## Serialization: `JSON.stringify`, compact and two-space pretty form -/

/-- The serialized keyword `null`. -/
def nullChars : List Char := ['n', 'u', 'l', 'l']

/-- The serialized keyword `true`. -/
def trueChars : List Char := ['t', 'r', 'u', 'e']

/-- The serialized keyword `false`. -/
def falseChars : List Char := ['f', 'a', 'l', 's', 'e']

/-- One character of a JSON string body, escaped as the serializer writes it:
quotes and backslashes get a backslash, everything else is copied. -/
def escapeChar (c : Char) : List Char :=
  if c = '"' then ['\\', '"'] else if c = '\\' then ['\\', '\\'] else [c]

/-- The escaped body of a JSON string. -/
def escapeStr (cs : List Char) : List Char :=
  (cs.map escapeChar).flatten

/-- A quoted JSON string literal for `s`. -/
def quoteStr (s : String) : List Char :=
  '"' :: escapeStr s.data ++ ['"']

/-- The decimal digit character for `d % 10`. -/
def digitChar (d : Nat) : Char :=
  match d with
  | 0 => '0' | 1 => '1' | 2 => '2' | 3 => '3' | 4 => '4'
  | 5 => '5' | 6 => '6' | 7 => '7' | 8 => '8' | _ => '9'

/-- Decimal digits, most significant first; the first argument only bounds
the recursion depth and `natToChars` always passes enough. -/
def natToCharsAux : Nat → Nat → List Char
  | 0, _ => []
  | fuel + 1, n =>
    if n < 10 then [digitChar n]
    else natToCharsAux fuel (n / 10) ++ [digitChar (n % 10)]

/-- Decimal digits of a natural number, most significant first. -/
def natToChars (n : Nat) : List Char := natToCharsAux (n + 1) n

/-- Decimal rendering of an integer, as `JSON.stringify` writes a number. -/
def intToChars (i : Int) : List Char :=
  if i < 0 then '-' :: natToChars i.natAbs else natToChars i.natAbs

mutual

/-- Compact serialization, modelling `JSON.stringify(v)`. -/
def stringifyChars : Json → List Char
  | .null => nullChars
  | .bool true => trueChars
  | .bool false => falseChars
  | .num n => intToChars n
  | .str s => quoteStr s
  | .arr [] => ['[', ']']
  | .arr (x :: xs) => '[' :: (stringifyChars x ++ stringifyArrTail xs)
  | .obj [] => ['\x7b', '\x7d']
  | .obj ((k, v) :: fs) =>
      '\x7b' :: (quoteStr k ++ ':' :: stringifyChars v ++ stringifyObjTail fs)

/-- The rest of a compact array after the first element: `,`-separated
elements and the closing bracket. -/
def stringifyArrTail : List Json → List Char
  | [] => [']']
  | y :: ys => ',' :: (stringifyChars y ++ stringifyArrTail ys)

/-- The rest of a compact object after the first field. -/
def stringifyObjTail : List (String × Json) → List Char
  | [] => ['\x7d']
  | (k, v) :: fs => ',' :: (quoteStr k ++ ':' :: stringifyChars v ++ stringifyObjTail fs)

end

/-- `JSON.stringify(v)`: the compact serialization used for hashing. -/
def stringify (v : Json) : String := ⟨stringifyChars v⟩

/-- `n` spaces of indentation. -/
def spaces (n : Nat) : List Char := List.replicate n ' '

mutual

/-- Pretty serialization at indentation `ind`, modelling
`JSON.stringify(v, null, 2)` — the form the published artifact is written in. -/
def prettyChars (ind : Nat) : Json → List Char
  | .null => nullChars
  | .bool true => trueChars
  | .bool false => falseChars
  | .num n => intToChars n
  | .str s => quoteStr s
  | .arr [] => ['[', ']']
  | .arr (x :: xs) =>
      '[' :: '\n' :: spaces (ind + 2) ++ prettyChars (ind + 2) x ++ prettyArrTail ind xs
  | .obj [] => ['\x7b', '\x7d']
  | .obj ((k, v) :: fs) =>
      '\x7b' :: '\n' :: spaces (ind + 2) ++ quoteStr k ++ ':' :: ' ' ::
        prettyChars (ind + 2) v ++ prettyObjTail ind fs

/-- Separator-prefixed remaining elements of a pretty array, then `]` on its
own line at indentation `ind`. -/
def prettyArrTail (ind : Nat) : List Json → List Char
  | [] => '\n' :: spaces ind ++ [']']
  | y :: ys =>
      ',' :: '\n' :: spaces (ind + 2) ++ prettyChars (ind + 2) y ++ prettyArrTail ind ys

/-- Separator-prefixed remaining fields of a pretty object, then the brace. -/
def prettyObjTail (ind : Nat) : List (String × Json) → List Char
  | [] => '\n' :: spaces ind ++ ['\x7d']
  | (k, v) :: fs =>
      ',' :: '\n' :: spaces (ind + 2) ++ quoteStr k ++ ':' :: ' ' ::
        prettyChars (ind + 2) v ++ prettyObjTail ind fs

end

/-- `JSON.stringify(v, null, 2)`. -/
def prettyStringify (v : Json) : String := ⟨prettyChars 0 v⟩

/-! ## Parsing: `JSON.parse` -/

/-- Whether a character is JSON whitespace. -/
def isWsChar (c : Char) : Bool :=
  c = ' ' || c = '\n' || c = '\t' || c = '\r'

/-- Drop leading whitespace. -/
def skipWs : List Char → List Char
  | [] => []
  | c :: cs => if isWsChar c then skipWs cs else c :: cs

/-- Decode one escape character of a JSON string literal. -/
def decodeEsc (c : Char) : Option Char :=
  if c = '"' then some '"'
  else if c = '\\' then some '\\'
  else if c = '/' then some '/'
  else if c = 'n' then some '\n'
  else if c = 't' then some '\t'
  else if c = 'r' then some '\r'
  else none

mutual

/-- Scan the body of a string literal after the opening quote, returning the
decoded characters and the input after the closing quote. -/
def scanStringBody : List Char → Option (List Char × List Char)
  | [] => none
  | c :: rest =>
    if c = '"' then some ([], rest)
    else if c = '\\' then scanEscape rest
    else (scanStringBody rest).map fun p => (c :: p.1, p.2)

/-- Scan what follows a backslash inside a string literal. -/
def scanEscape : List Char → Option (List Char × List Char)
  | [] => none
  | d :: rest =>
    match decodeEsc d with
    | some e => (scanStringBody rest).map fun p => (e :: p.1, p.2)
    | none => none

end

/-- Greedily consume decimal digits, folding them onto an accumulator. -/
def scanDigits : List Char → Nat → Nat × List Char
  | [], acc => (acc, [])
  | c :: rest, acc =>
    if c.isDigit then scanDigits rest (acc * 10 + (c.toNat - 48))
    else (acc, c :: rest)

/-- Whether the input starts with a decimal digit. -/
def headIsDigit : List Char → Bool
  | [] => false
  | c :: _ => c.isDigit

/-- Match a literal keyword prefix, returning the rest of the input. -/
def expectChars : List Char → List Char → Option (List Char)
  | [], rest => some rest
  | k :: ks, c :: rest => if c = k then expectChars ks rest else none
  | _ :: _, [] => none

mutual

/-- Fuel-bounded JSON value scanner: leading whitespace, then one value.
Returns the value and the input immediately after it.  The fuel only bounds
the nesting descent; `parseJson` supplies enough for any input it accepts. -/
def parseV : Nat → List Char → Option (Json × List Char)
  | 0, _ => none
  | fuel + 1, cs =>
    match skipWs cs with
    | [] => none
    | c :: rest =>
      if c = 'n' then (expectChars ['u', 'l', 'l'] rest).map fun r => (Json.null, r)
      else if c = 't' then (expectChars ['r', 'u', 'e'] rest).map fun r => (Json.bool true, r)
      else if c = 'f' then (expectChars ['a', 'l', 's', 'e'] rest).map fun r => (Json.bool false, r)
      else if c = '"' then (scanStringBody rest).map fun p => (Json.str ⟨p.1⟩, p.2)
      else if c = '[' then
        match skipWs rest with
        | [] => none
        | d :: r =>
          if d = ']' then some (Json.arr [], r)
          else (parseItems fuel (d :: r)).map fun p => (Json.arr p.1, p.2)
      else if c = '\x7b' then
        match skipWs rest with
        | [] => none
        | d :: r =>
          if d = '\x7d' then some (Json.obj [], r)
          else (parseFields fuel (d :: r)).map fun p => (Json.obj p.1, p.2)
      else if c = '-' then
        if headIsDigit rest then
          let p := scanDigits rest 0
          some (Json.num (-(p.1 : Int)), p.2)
        else none
      else if c.isDigit then
        let p := scanDigits (c :: rest) 0
        some (Json.num (p.1 : Int), p.2)
      else none

/-- Scan the elements of a non-empty array body up to and including `]`. -/
def parseItems : Nat → List Char → Option (List Json × List Char)
  | 0, _ => none
  | fuel + 1, cs =>
    match parseV fuel cs with
    | none => none
    | some (v, r) =>
      match skipWs r with
      | [] => none
      | d :: r' =>
        if d = ',' then (parseItems fuel r').map fun p => (v :: p.1, p.2)
        else if d = ']' then some ([v], r')
        else none

/-- Scan the fields of a non-empty object body up to and including the brace. -/
def parseFields : Nat → List Char → Option (List (String × Json) × List Char)
  | 0, _ => none
  | fuel + 1, cs =>
    match skipWs cs with
    | [] => none
    | c :: r =>
      if c = '"' then
        match scanStringBody r with
        | none => none
        | some (k, r') =>
          match skipWs r' with
          | [] => none
          | d :: r'' =>
            if d = ':' then
              match parseV fuel r'' with
              | none => none
              | some (v, r3) =>
                match skipWs r3 with
                | [] => none
                | e :: r4 =>
                  if e = ',' then (parseFields fuel r4).map fun p => ((⟨k⟩, v) :: p.1, p.2)
                  else if e = '\x7d' then some ([(⟨k⟩, v)], r4)
                  else none
            else none
      else none

end

/-- `JSON.parse(s)`: scan one value and require only whitespace after it;
`none` models the `SyntaxError` exception. -/
def parseJson (s : String) : Option Json :=
  match parseV (s.data.length + 1) s.data with
  | some (v, rest) => if skipWs rest = [] then some v else none
  | none => none

/-- Specification of one `scanDigits` folding step. -/
def digitStep (a : Nat) (c : Char) : Nat := a * 10 + (c.toNat - 48)

/-! ## The Notion property model and `extractPropertyValue`

Modelled from the identical `extractPropertyValue` function of
`scripts/fetch-events-from-notion.mjs` and the unnamed fetch variant.  A
`Property` is one typed field payload of a Notion page; constructor names
follow the `property.type` tags of the source's `switch`.  JavaScript
falsiness of `""` and `0` in the source's `x || null` expressions is modelled
by the `js...OrNull` helpers. -/

/-- A Notion date payload: the extractor only reads `start`. -/
structure DateVal where
  start : String
  endDate : Option String := none

/-- A Notion file entry: `file.file?.url` is the internally-hosted location,
`file.external?.url` the external one. -/
structure FileVal where
  name : String
  fileUrl : Option String
  externalUrl : Option String

/-- The tagged payload of a Notion formula property. -/
inductive FormulaVal where
  | fstring (s : Option String)
  | fnumber (n : Option Int)
  | fboolean (b : Bool)
  | fdate (d : Option DateVal)
  | funknown (tag : String)

/-- One typed Notion property value. -/
inductive Property where
  | title (texts : List String)
  | rich_text (texts : List String)
  | number (n : Option Int)
  | select (sname : Option String)
  | multi_select (names : List String)
  | date (d : Option DateVal)
  | checkbox (b : Bool)
  | url (u : Option String)
  | email (e : Option String)
  | phone_number (p : Option String)
  | status (sname : Option String)
  | relation (ids : List String)
  | rollup (array : Option (List Property)) (number : Option Int)
  | formula (f : FormulaVal)
  | created_time (t : String)
  | last_edited_time (t : String)
  | created_by (id : String)
  | last_edited_by (id : String)
  | people (ids : List String)
  | files (fs : List FileVal)
  | unknown (tag : String)

/-- `s || null` for a JavaScript string: the empty string is falsy. -/
def jsStrOrNull (s : String) : Json :=
  if s = "" then Json.null else Json.str s

/-- `x?.f || null` for an optional string field. -/
def jsOptStrOrNull : Option String → Json
  | some s => jsStrOrNull s
  | none => Json.null

/-- A nullable number field returned directly (`return property.number`):
null passes through and 0 is kept. -/
def jsNum : Option Int → Json
  | some n => Json.num n
  | none => Json.null

/-- `x?.number || null`: both null and the falsy 0 give null. -/
def jsNumOrNull : Option Int → Json
  | some n => if n = 0 then Json.null else Json.num n
  | none => Json.null

/-- `file.file?.url || file.external?.url || null`. -/
def fileUrlJson (f : FileVal) : Json :=
  match f.fileUrl with
  | some u => if u = "" then jsOptStrOrNull f.externalUrl else Json.str u
  | none => jsOptStrOrNull f.externalUrl

/-- The `{ name, url }` object built for one file entry. -/
def fileJson (f : FileVal) : Json :=
  Json.obj [("name", Json.str f.name), ("url", fileUrlJson f)]

/-- `v !== null`, the filter applied to extracted rollup elements. -/
def isNotNull : Json → Bool
  | .null => false
  | _ => true

mutual

/-- `extractPropertyValue(property)` of both fetch scripts: converts one
typed Notion property into a plain value. -/
def extractPropertyValue : Property → Json
  | .title texts => jsStrOrNull (String.join texts)
  | .rich_text texts => jsStrOrNull (String.join texts)
  | .number n => jsNum n
  | .select sname => jsOptStrOrNull sname
  | .multi_select names => Json.arr (names.map Json.str)
  | .date (some dv) => jsStrOrNull dv.start
  | .date none => Json.null
  | .checkbox b => Json.bool b
  | .url u => jsOptStrOrNull u
  | .email e => jsOptStrOrNull e
  | .phone_number p => jsOptStrOrNull p
  | .status sname => jsOptStrOrNull sname
  | .relation ids => Json.arr (ids.map Json.str)
  | .rollup (some items) _ => Json.arr ((extractRollupItems items).filter isNotNull)
  | .rollup none num => jsNumOrNull num
  | .formula (.fstring s) => jsOptStrOrNull s
  | .formula (.fnumber n) => jsNum n
  | .formula (.fboolean b) => Json.bool b
  | .formula (.fdate (some dv)) => jsStrOrNull dv.start
  | .formula (.fdate none) => Json.null
  | .formula (.funknown _) => Json.null
  | .created_time t => jsStrOrNull t
  | .last_edited_time t => jsStrOrNull t
  | .created_by id => jsStrOrNull id
  | .last_edited_by id => jsStrOrNull id
  | .people ids => Json.arr (ids.map Json.str)
  | .files fs => Json.arr (fs.map fileJson)
  | .unknown _ => Json.null

/-- The rollup array map: nested title items are special-cased exactly as in
the source, every other item goes through `extractPropertyValue` again. -/
def extractRollupItems : List Property → List Json
  | [] => []
  | item :: rest =>
      (match item with
       | .title texts => jsStrOrNull (String.join texts)
       | _ => extractPropertyValue item) :: extractRollupItems rest

end

/-! Size of a property for fuel accounting: only rollup arrays nest. -/

mutual

def szP : Property → Nat
  | .rollup (some items) _ => 1 + szPL items
  | _ => 1

def szPL : List Property → Nat
  | [] => 1
  | p :: ps => 1 + szP p + szPL ps

end

/-- The non-recursive extraction cases, shared by `extractFuel`. -/
def extractNonRec : Property → Json
  | .title texts => jsStrOrNull (String.join texts)
  | .rich_text texts => jsStrOrNull (String.join texts)
  | .number n => jsNum n
  | .select sname => jsOptStrOrNull sname
  | .multi_select names => Json.arr (names.map Json.str)
  | .date (some dv) => jsStrOrNull dv.start
  | .date none => Json.null
  | .checkbox b => Json.bool b
  | .url u => jsOptStrOrNull u
  | .email e => jsOptStrOrNull e
  | .phone_number p => jsOptStrOrNull p
  | .status sname => jsOptStrOrNull sname
  | .relation ids => Json.arr (ids.map Json.str)
  | .rollup _ num => jsNumOrNull num
  | .formula (.fstring s) => jsOptStrOrNull s
  | .formula (.fnumber n) => jsNum n
  | .formula (.fboolean b) => Json.bool b
  | .formula (.fdate (some dv)) => jsStrOrNull dv.start
  | .formula (.fdate none) => Json.null
  | .formula (.funknown _) => Json.null
  | .created_time t => jsStrOrNull t
  | .last_edited_time t => jsStrOrNull t
  | .created_by id => jsStrOrNull id
  | .last_edited_by id => jsStrOrNull id
  | .people ids => Json.arr (ids.map Json.str)
  | .files fs => Json.arr (fs.map fileJson)
  | .unknown _ => Json.null

mutual

/-- Fuel-bounded variant of `extractPropertyValue`: `none` means the fuel ran
out before the recursion bottomed out. -/
def extractFuel : Nat → Property → Option Json
  | 0, _ => none
  | fuel + 1, p =>
    match p with
    | .rollup (some items) _ =>
        (extractRollupFuel fuel items).map fun vs => Json.arr (vs.filter isNotNull)
    | q => some (extractNonRec q)

/-- Fuel-bounded variant of `extractRollupItems`. -/
def extractRollupFuel : Nat → List Property → Option (List Json)
  | 0, _ => none
  | _ + 1, [] => some []
  | fuel + 1, item :: rest =>
    match (match item with
           | .title texts => some (jsStrOrNull (String.join texts))
           | _ => extractFuel fuel item) with
    | none => none
    | some v => (extractRollupFuel fuel rest).map fun vs => v :: vs

end

/-- Whether a value is a scalar, an array, or null — never a bare object. -/
def isScalarOrArrayOrNull : Json → Bool
  | .null => true
  | .bool _ => true
  | .num _ => true
  | .str _ => true
  | .arr _ => true
  | .obj _ => false

/-! ## Mapped events: JavaScript objects, truthiness, and `mapEvent`

Mapped events are association lists `List (String × Json)` in insertion
order, as JavaScript objects are.  `setKey` models `event[key] = value`
(overwriting in place, appending otherwise), `delKey` models
`delete event[key]`, `getKey` models property access (`none` is
`undefined`). -/

/-- JavaScript truthiness of a value. -/
def truthy : Json → Bool
  | .null => false
  | .bool b => b
  | .num n => !(n == 0)
  | .str s => !(s == "")
  | .arr _ => true
  | .obj _ => true

/-- Truthiness of a possibly-absent (`undefined`) value. -/
def otruthy : Option Json → Bool
  | none => false
  | some v => truthy v

/-- Property access on an object. -/
def getKey : List (String × Json) → String → Option Json
  | [], _ => none
  | (k, v) :: rest, key => if k = key then some v else getKey rest key

/-- Property assignment: overwrite in place, else append. -/
def setKey : List (String × Json) → String → Json → List (String × Json)
  | [], key, v => [(key, v)]
  | (k, w) :: rest, key, v =>
      if k = key then (key, v) :: rest else (k, w) :: setKey rest key v

/-- `delete event[key]`. -/
def delKey : List (String × Json) → String → List (String × Json)
  | [], _ => []
  | (k, w) :: rest, key =>
      if k = key then delKey rest key else (k, w) :: delKey rest key

/-- One page (record) of the remote store: a stable id and its typed
properties in insertion order. -/
structure Page where
  id : String
  properties : List (String × Property)

/-- The property-copying loop of `mapEvent`: walk the page's properties in
order, skip the excluded keys, extract each value and keep it when it is
neither null nor undefined. -/
def buildEvent (excluded : List String) (props : List (String × Property)) :
    List (String × Json) :=
  props.foldl
    (fun ev kp =>
      if kp.1 ∈ excluded then ev
      else
        let value := extractPropertyValue kp.2
        if isNotNull value then setKey ev kp.1 value else ev)
    []

/-- `.replace(",", "")`: remove the first comma only. -/
def removeFirstComma : List Char → List Char
  | [] => []
  | c :: rest => if c = ',' then rest else c :: removeFirstComma rest

/-- The comma stripping applied to the locale-formatted date string. -/
def stripFirstComma (s : String) : String := ⟨removeFirstComma s.data⟩

/-- `formatDatePretty(dateString)`: null on a falsy input, otherwise the
locale-formatted string (the `Intl.DateTimeFormat` platform formatter is the
parameter `intl`) with its first comma removed. -/
def formatDatePretty (intl : Json → String) (v : Json) : Json :=
  if truthy v then Json.str (stripFirstComma (intl v)) else Json.null

/-- The `datePretty` derivation at the end of `mapEvent`, identical in both
fetch scripts: prefer `event.Date`, then fall back to `event.date` when
`event.datePretty` is still falsy. -/
def addDatePretty (intl : Json → String) (ev : List (String × Json)) :
    List (String × Json) :=
  let ev1 :=
    if otruthy (getKey ev "Date") then
      setKey ev "datePretty" (formatDatePretty intl ((getKey ev "Date").getD Json.null))
    else ev
  if !otruthy (getKey ev1 "datePretty") && otruthy (getKey ev1 "date") then
    setKey ev1 "datePretty" (formatDatePretty intl ((getKey ev1 "date").getD Json.null))
  else ev1

namespace FetchEvents

/-- The exclusion list of `mapEvent` in `scripts/fetch-events-from-notion.mjs`:
only the location relation and the visibility flag. -/
def excludedProperties : List String := ["Location", "Visible on site"]

/-- `mapEvent(page)` of `scripts/fetch-events-from-notion.mjs`. -/
def mapEvent (intl : Json → String) (page : Page) : List (String × Json) :=
  addDatePretty intl (buildEvent excludedProperties page.properties)

end FetchEvents

namespace FetchSync

/-- The exclusion list of `mapEvent` in the unnamed fetch variant: the
location relation, both venue fields, and the visibility flag. -/
def excludedProperties : List String :=
  ["Location", "Place Name", "Place Link", "Visible on site"]

/-- `mapEvent(page)` of the unnamed fetch variant, including its defensive
`delete event['Place Name'] / ['Place Link'] / ['Place']` safety net. -/
def mapEvent (intl : Json → String) (page : Page) : List (String × Json) :=
  let ev := buildEvent excludedProperties page.properties
  let ev := delKey (delKey (delKey ev "Place Name") "Place Link") "Place"
  addDatePretty intl ev

end FetchSync

/-- JavaScript `a || b` on possibly-undefined values. -/
def jsOr (a b : Option Json) : Option Json := if otruthy a then a else b

/-- JavaScript `a && b` on possibly-undefined values. -/
def jsAnd (a b : Option Json) : Option Json := if otruthy a then b else a

/-- The filter callback of both fetch scripts:
`(event.Name || event.name) && (event.Date || event.date)`. -/
def isValidEvent (ev : List (String × Json)) : Bool :=
  otruthy (jsAnd (jsOr (getKey ev "Name") (getKey ev "name"))
                 (jsOr (getKey ev "Date") (getKey ev "date")))

/-- `events.filter(...)`: the published collection, identical in both fetch
scripts. -/
def validEvents (events : List (List (String × Json))) :
    List (List (String × Json)) :=
  events.filter isValidEvent

/-! ## Content hashing and the publish decision -/

/-- The one error category the model distinguishes: `JSON.parse` throwing.
A thrown error that is not `ENOENT` propagates out of
`getExistingEventsHash`. -/
inductive JsErr where
  | syntaxError
deriving DecidableEq

/-- `computeEventsHash(events)`: the SHA-256 hex digest (the hash function
itself is the parameter `sha`) of the compact `JSON.stringify` of the
collection. -/
def computeEventsHash (sha : String → String) (events : Json) : String :=
  sha (stringify events)

/-- `getExistingEventsHash()`: read the artifact (`none` models ENOENT, which
is caught and returned as null), `JSON.parse` it (a parse failure is a thrown
error whose code is not `ENOENT`, so the catch re-throws it), and hash the
parsed collection. -/
def getExistingEventsHash (sha : String → String) (file : Option String) :
    Except JsErr (Option String) :=
  match file with
  | none => .ok none
  | some content =>
    match parseJson content with
    | none => .error .syntaxError
    | some events => .ok (some (computeEventsHash sha events))

/-- What `fetchAndWriteEvents` does after comparing hashes. -/
inductive SyncAction where
  | skipUnchanged
  | writeArtifact
deriving DecidableEq

/-- Truthiness of the nullable string `existingHash`. -/
def jsTruthyOptStr : Option String → Bool
  | none => false
  | some s => !(s == "")

/-- The publish decision of `fetchAndWriteEvents`:
`if (existingHash && newHash === existingHash)` exit 0 without writing,
otherwise write the artifact. -/
def syncAction (newHash : String) (existingHash : Option String) : SyncAction :=
  if jsTruthyOptStr existingHash && (some newHash == existingHash) then
    .skipUnchanged
  else
    .writeArtifact

/-- Steps 7–9 of the run: read and hash the existing artifact, then decide;
an error reading/parsing it propagates and aborts the run. -/
def syncActionFromFile (sha : String → String) (file : Option String)
    (newHash : String) : Except JsErr SyncAction :=
  (getExistingEventsHash sha file).map (syncAction newHash)

/-! ## Timestamps and the staleness checkers

`new Date(s)` is modelled by a parameter `parseDate : String → Option Int`
giving the epoch milliseconds, `none` standing for an Invalid Date (NaN);
every comparison against NaN is false in JavaScript, which `jsLtOpt` and
`jsLeOpt` reproduce.  `setHours(0,0,0,0)` (truncation to local start of day)
is the parameter `truncDay : Int → Int`. -/

/-- `a < b` on possibly-NaN dates. -/
def jsLtOpt : Option Int → Option Int → Bool
  | some a, some b => decide (a < b)
  | _, _ => false

/-- `a <= b` on possibly-NaN dates. -/
def jsLeOpt : Option Int → Option Int → Bool
  | some a, some b => decide (a ≤ b)
  | _, _ => false

/-- Property lookup on a page's typed properties. -/
def getProp : List (String × Property) → String → Option Property
  | [], _ => none
  | (k, v) :: rest, key => if k = key then some v else getProp rest key

/-- `page.properties.Date || page.properties.date`, kept only when it has
type `date` with a non-null payload; yields the start string.  Shared by the
status updater and the date-passed scan. -/
def datePropStart (page : Page) : Option String :=
  let dp :=
    match getProp page.properties "Date" with
    | some p => some p
    | none => getProp page.properties "date"
  match dp with
  | some (Property.date (some dv)) => some dv.start
  | _ => none

namespace CheckUpdates

/-- `checkForDateBasedStatusChanges` of `scripts/check-notion-updates.mjs`:
scan the queried page of visible upcoming records for one whose date,
truncated to start of day, is strictly before today; a query error is
fail-safe `true`. -/
def checkForDateBasedStatusChanges (parseDate : String → Option Int)
    (truncDay : Int → Int) (now : Int)
    (queryResult : Except String (List Page)) : Bool :=
  match queryResult with
  | .error _ => true
  | .ok pages =>
    pages.any fun page =>
      match datePropStart page with
      | some s => jsLtOpt ((parseDate s).map truncDay) (some (truncDay now))
      | none => false

/-- `checkIfFetchNeeded` of `scripts/check-notion-updates.mjs`.  Note that
the checkpoint is truncated (`lastSyncDate.setHours(0,0,0,0)`) before the
comparison `dbEditedDate > lastSyncDate`, while the remote timestamp is not. -/
def checkIfFetchNeeded (parseDate : String → Option Int) (truncDay : Int → Int)
    (lastSyncTimestamp : Option String) (databaseLastEdited : Option String)
    (hasDateBasedChanges : Bool) : Bool :=
  match lastSyncTimestamp with
  | none => true
  | some ts =>
    if ts = "" then true
    else
      match databaseLastEdited with
      | none => true
      | some dbts =>
        if dbts = "" then true
        else
          let dbWasUpdated := jsLtOpt ((parseDate ts).map truncDay) (parseDate dbts)
          if !dbWasUpdated && !hasDateBasedChanges then false else true

/-- The process exit code: 0 = fetch needed, 1 = skip. -/
def exitCode (parseDate : String → Option Int) (truncDay : Int → Int)
    (lastSyncTimestamp databaseLastEdited : Option String)
    (hasDateBasedChanges : Bool) : Nat :=
  if checkIfFetchNeeded parseDate truncDay lastSyncTimestamp databaseLastEdited
      hasDateBasedChanges then 0
  else 1

end CheckUpdates

namespace CheckUpdatesV0

/-- `checkIfFetchNeeded` of the unnamed checker variant: exact (untruncated)
timestamp comparison `dbEditedDate <= lastSyncDate → skip`, and no
date-passed scan. -/
def checkIfFetchNeeded (parseDate : String → Option Int)
    (lastSyncTimestamp : Option String) (databaseLastEdited : Option String) : Bool :=
  match lastSyncTimestamp with
  | none => true
  | some ts =>
    if ts = "" then true
    else
      match databaseLastEdited with
      | none => true
      | some dbts =>
        if dbts = "" then true
        else if jsLeOpt (parseDate dbts) (parseDate ts) then false
        else true

/-- The process exit code: 0 = fetch needed, 1 = skip. -/
def exitCode (parseDate : String → Option Int)
    (lastSyncTimestamp databaseLastEdited : Option String) : Nat :=
  if checkIfFetchNeeded parseDate lastSyncTimestamp databaseLastEdited then 0
  else 1

end CheckUpdatesV0

/-! ## The status updater and its pagination (unnamed fetch variant) -/

namespace FetchSync

/-- One remote mutation issued by the status updater. -/
structure UpdateCall where
  pageId : String
  status : String
deriving DecidableEq

/-- Whether a fetched upcoming page's date has passed: the date property is
present with a non-null payload, and its parsed date truncated to start of
day is strictly before truncated now (`eventDate < now` is false for an
Invalid Date). -/
def isPastDue (parseDate : String → Option Int) (truncDay : Int → Int)
    (now : Int) (page : Page) : Bool :=
  match datePropStart page with
  | some s =>
    match parseDate s with
    | some t => decide (truncDay t < truncDay now)
    | none => false
  | none => false

/-- The update calls pushed by `updateEventStatusesInNotion`'s loop, in page
order: one `Status = "Past"` write per past-due page. -/
def updateCalls (parseDate : String → Option Int) (truncDay : Int → Int)
    (now : Int) (pages : List Page) : List UpdateCall :=
  pages.filterMap fun page =>
    if isPastDue parseDate truncDay now page then some ⟨page.id, "Past"⟩ else none

/-- A JavaScript value a function can return (`true`/`false` or a number). -/
inductive JsVal where
  | bool (b : Bool)
  | num (n : Int)
deriving DecidableEq

/-- The return value of `updateEventStatusesInNotion` on the successful query
path: every update promise resolves to `true` through `.then` or is caught
into `false` by its own `.catch` (the outcome of the remote call is the
parameter `api`), `updatedCount` counts the successes, and the function
returns `updatedCount > 0`. -/
def updateEventStatusesResult (parseDate : String → Option Int)
    (truncDay : Int → Int) (now : Int) (pages : List Page)
    (api : String → Except String Unit) : JsVal :=
  let calls := updateCalls parseDate truncDay now pages
  let results := calls.map fun c =>
    match api c.pageId with
    | .ok _ => true
    | .error _ => false
  JsVal.bool (decide (0 < results.count true))

/-- Modelled from the spec: `reconcileStatuses(records) -> count of records
updated` — the number of past-due records whose update call succeeded. -/
def reconcileStatusesSpecCount (parseDate : String → Option Int)
    (truncDay : Int → Int) (now : Int) (pages : List Page)
    (api : String → Except String Unit) : Nat :=
  (pages.filter (isPastDue parseDate truncDay now)).countP fun p =>
    match api p.id with
    | .ok _ => true
    | .error _ => false

/-- One page of a paginated query response. -/
structure QueryPageResult where
  results : List Page
  has_more : Bool
  next_cursor : Option Nat

/-- A well-behaved paginated store: its batches are indexed by the cursor,
`has_more`/`next_cursor` point at the following batch.  An absent cursor
(the first request's `undefined`) reads batch 0. -/
def queryBatches (batches : List (List Page)) (cursor : Option Nat) :
    QueryPageResult :=
  let i := cursor.getD 0
  { results := batches.getD i []
    has_more := decide (i + 1 < batches.length)
    next_cursor := if i + 1 < batches.length then some (i + 1) else none }

/-- The `while (hasMore)` pagination loop of `updateEventStatusesInNotion`:
query one page, append its results, continue with `next_cursor` while
`has_more`.  The fuel only bounds the model's iteration count; `none` means
it was exhausted while the loop would still be running. -/
def fetchAllPages (store : Option Nat → QueryPageResult) :
    Nat → Bool → Option Nat → List Page → Option (List Page)
  | _, false, _, acc => some acc
  | 0, true, _, _ => none
  | fuel + 1, true, cursor, acc =>
    let r := store cursor
    fetchAllPages store fuel r.has_more r.next_cursor (acc ++ r.results)

/-- The loop as entered: `hasMore = true`, `startCursor = undefined`,
`allPages = []`. -/
def fetchAllPagesRun (store : Option Nat → QueryPageResult) (fuel : Nat) :
    Option (List Page) :=
  fetchAllPages store fuel true none []

end FetchSync

namespace FetchEvents

/-- The main visible-events query of `fetchAndWriteEvents` (both variants):
a single `notion.databases.query` call with no cursor loop — only
`response.results`, the first page, is used. -/
def queryVisibleEventsOnce (store : Option Nat → FetchSync.QueryPageResult) :
    List Page :=
  (store none).results

end FetchEvents

/-- A concrete stand-in for the `Intl.DateTimeFormat` formatter, used when
evaluating the model at concrete inputs (the claims quantify over it). -/
def intlDemo : Json → String := fun _ => "1 Mar 2025, 19:00"

/-- A page carrying a venue name, as the remote store can return it. -/
def pageVenue : Page :=
  ⟨"page-1",
    [("Name", Property.title ["Meetup"]),
     ("Place Name", Property.rich_text ["Secret Cafe"]),
     ("Date", Property.date (some ⟨"2025-03-01T19:00:00.000+00:00", none⟩))]⟩

/-- A page whose `Name` property is a number field holding 0. -/
def pageZeroName : Page :=
  ⟨"page-2",
    [("Name", Property.number (some 0)),
     ("Date", Property.date (some ⟨"2025-01-01", none⟩))]⟩

/-- A concrete stand-in for the SHA-256 hex digest function, used when
evaluating the model at concrete inputs (the claims quantify over it). -/
def shaDemo : String → String := fun s => "sha256:" ++ s

/-- A concrete `new Date` parser covering the timestamps of the staleness
counterexample, in a UTC locale. -/
def parseDemo : String → Option Int := fun s =>
  if s = "2025-06-10T12:00:00.000Z" then some 1749556800000
  else if s = "2025-06-10T06:00:00.000Z" then some 1749535200000
  else none

/-- Start-of-day truncation in a UTC locale. -/
def truncUTC : Int → Int := fun t => t - t % 86400000

/-- A concrete `new Date` parser for the status-update scenarios, UTC locale. -/
def parseDates : String → Option Int := fun s =>
  if s = "2000-01-05T10:00:00.000Z" then some 947066400000
  else if s = "2099-01-01T10:00:00.000Z" then some 4070944800000
  else none

/-- A concrete "now": 2025-02-10T09:30:00Z in epoch milliseconds. -/
def nowDemo : Int := 1739179800000

/-- A visible upcoming page whose date has passed. -/
def pagePast : Page :=
  ⟨"past-1",
    [("Name", Property.title ["B"]),
     ("Date", Property.date (some ⟨"2000-01-05T10:00:00.000Z", none⟩))]⟩

/-- A visible upcoming page dated in the future. -/
def pageFuture : Page :=
  ⟨"fut-1",
    [("Name", Property.title ["A"]),
     ("Date", Property.date (some ⟨"2099-01-01T10:00:00.000Z", none⟩))]⟩

/-- A second past-due page. -/
def pagePastB : Page :=
  ⟨"past-2",
    [("Name", Property.title ["C"]),
     ("Date", Property.date (some ⟨"2000-01-05T10:00:00.000Z", none⟩))]⟩

/-- An update endpoint on which every call succeeds. -/
def apiOk : String → Except String Unit := fun _ => Except.ok ()

/-- Two one-record batches of a paginated query result. -/
def pgA : Page := ⟨"a", []⟩

/-- See `pgA`. -/
def pgB : Page := ⟨"b", []⟩

/-! ## Theorems -/

/-- Every `Json` value has positive automatic size. -/
theorem Json.one_le_sizeOf : (v : Json) → 1 ≤ sizeOf v
  | .null => by simp
  | .bool _ => by simp
  | .num _ => by simp
  | .str _ => by simp
  | .arr _ => by simp
  | .obj _ => by simp

/-! ## Parser correctness on serializer output -/

theorem string_mk_data : ∀ s : String, (⟨s.data⟩ : String) = s := fun ⟨_⟩ => rfl

theorem skipWs_cons_of_not_ws {c : Char} (h : isWsChar c = false) (r : List Char) :
    skipWs (c :: r) = c :: r := by
  simp [skipWs, h]

theorem skipWs_spaces_append (n : Nat) (r : List Char) :
    skipWs (spaces n ++ r) = skipWs r := by
  induction n with
  | zero => simp [spaces]
  | succ m ih =>
      simpa [spaces, List.replicate_succ, skipWs, isWsChar] using ih

theorem skipWs_newline (r : List Char) : skipWs ('\n' :: r) = skipWs r := by
  simp [skipWs, isWsChar]

theorem scanStringBody_escape (cs : List Char) (rest : List Char) :
    scanStringBody (escapeStr cs ++ '"' :: rest) = some (cs, rest) := by
  induction cs with
  | nil => simp [escapeStr, scanStringBody]
  | cons c cs ih =>
      rw [show escapeStr (c :: cs) = escapeChar c ++ escapeStr cs from by
        simp [escapeStr]]
      by_cases hq : c = '"'
      · subst hq
        simp [escapeChar, scanStringBody, scanEscape, decodeEsc, ih]
      · by_cases hb : c = '\\'
        · subst hb
          simp [escapeChar, scanStringBody, scanEscape, decodeEsc, ih]
        · simp [escapeChar, hq, hb, scanStringBody, ih]

theorem expectChars_prefix (k : List Char) (rest : List Char) :
    expectChars k (k ++ rest) = some rest := by
  induction k with
  | nil => simp [expectChars]
  | cons c k ih => simp [expectChars, ih]

theorem digitChar_isDigit (m : Nat) : (digitChar m).isDigit = true := by
  unfold digitChar
  split <;> decide

theorem digitChar_toNat (m : Nat) (h : m < 10) : (digitChar m).toNat - 48 = m := by
  interval_cases m <;> decide

theorem scanDigits_all_digits (ds : List Char) (h : ∀ c ∈ ds, c.isDigit = true)
    (rest : List Char) (acc : Nat) :
    scanDigits (ds ++ rest) acc = scanDigits rest (ds.foldl digitStep acc) := by
  induction ds generalizing acc with
  | nil => simp
  | cons c ds ih =>
      have hc : c.isDigit = true := h c (by simp)
      simp only [List.cons_append, scanDigits, hc, if_pos]
      exact ih (fun d hd => h d (by simp [hd])) (acc * 10 + (c.toNat - 48))

theorem scanDigits_stop (rest : List Char) (h : headIsDigit rest = false) (acc : Nat) :
    scanDigits rest acc = (acc, rest) := by
  cases rest with
  | nil => simp [scanDigits]
  | cons c r =>
      simp only [headIsDigit] at h
      simp [scanDigits, h]

theorem natToCharsAux_digits (fuel : Nat) :
    ∀ n, ∀ c ∈ natToCharsAux fuel n, c.isDigit = true := by
  induction fuel with
  | zero => intro n c hc; simp [natToCharsAux] at hc
  | succ fuel ih =>
      intro n c hc
      rw [natToCharsAux] at hc
      by_cases h : n < 10
      · rw [if_pos h] at hc
        simp at hc
        simp [hc, digitChar_isDigit]
      · rw [if_neg h] at hc
        rcases List.mem_append.mp hc with h1 | h1
        · exact ih (n / 10) c h1
        · simp at h1
          simp [h1, digitChar_isDigit]

theorem natToChars_digits (n : Nat) : ∀ c ∈ natToChars n, c.isDigit = true :=
  natToCharsAux_digits (n + 1) n

theorem natToCharsAux_foldl (fuel : Nat) :
    ∀ n acc, n < 10 ^ fuel →
      (natToCharsAux fuel n).foldl digitStep acc =
        acc * 10 ^ (natToCharsAux fuel n).length + n := by
  induction fuel with
  | zero =>
      intro n acc hn
      have : n = 0 := by simpa using hn
      simp [natToCharsAux, this]
  | succ fuel ih =>
      intro n acc hn
      rw [natToCharsAux]
      by_cases h : n < 10
      · rw [if_pos h]
        simp [digitStep, digitChar_toNat n h]
      · rw [if_neg h]
        have hdiv : n / 10 < 10 ^ fuel := by
          rw [Nat.div_lt_iff_lt_mul (by omega)]
          calc n < 10 ^ (fuel + 1) := hn
          _ = 10 ^ fuel * 10 := by ring
        rw [List.foldl_append, ih (n / 10) acc hdiv]
        simp only [List.foldl_cons, List.foldl_nil, digitStep, List.length_append,
          List.length_cons, List.length_nil]
        rw [digitChar_toNat (n % 10) (Nat.mod_lt n (by omega))]
        ring_nf
        omega

theorem nat_lt_ten_pow (n : Nat) : n < 10 ^ (n + 1) := by
  induction n with
  | zero => norm_num
  | succ m ih =>
      have : 10 ^ (m + 1) ≤ 10 ^ (m + 2) := Nat.pow_le_pow_right (by omega) (by omega)
      omega

theorem natToChars_foldl (n : Nat) (acc : Nat) :
    (natToChars n).foldl digitStep acc = acc * 10 ^ (natToChars n).length + n :=
  natToCharsAux_foldl (n + 1) n acc (nat_lt_ten_pow n)

theorem scanDigits_natToChars (n : Nat) (rest : List Char)
    (h : headIsDigit rest = false) :
    scanDigits (natToChars n ++ rest) 0 = (n, rest) := by
  rw [scanDigits_all_digits (natToChars n) (natToChars_digits n) rest 0,
    scanDigits_stop rest h, natToChars_foldl]
  simp

theorem natToCharsAux_head (fuel : Nat) :
    ∀ n, ∃ m t, natToCharsAux (fuel + 1) n = digitChar m :: t := by
  induction fuel with
  | zero =>
      intro n
      by_cases h : n < 10
      · exact ⟨n, [], by rw [natToCharsAux, if_pos h]⟩
      · exact ⟨n % 10, [], by rw [natToCharsAux, if_neg h]; simp [natToCharsAux]⟩
  | succ fuel ih =>
      intro n
      by_cases h : n < 10
      · exact ⟨n, [], by rw [natToCharsAux, if_pos h]⟩
      · obtain ⟨m, t, ht⟩ := ih (n / 10)
        exact ⟨m, t ++ [digitChar (n % 10)],
          by rw [natToCharsAux, if_neg h, ht]; simp⟩

theorem natToChars_head (n : Nat) :
    ∃ m t, natToChars n = digitChar m :: t :=
  natToCharsAux_head n n

theorem isDigit_not_ws {c : Char} (h : c.isDigit = true) : isWsChar c = false := by
  cases hw : isWsChar c
  · rfl
  · exfalso
    simp [isWsChar] at hw
    rcases hw with ((h1 | h1) | h1) | h1 <;> (subst h1; exact absurd h (by decide))

theorem isDigit_ne {c d : Char} (h : c.isDigit = true) (hd : d.isDigit = false) :
    c ≠ d := by
  intro he
  subst he
  rw [h] at hd
  cases hd

theorem szJ_pos (v : Json) : 1 ≤ szJ v := by
  cases v <;> simp [szJ]

theorem szL_pos (xs : List Json) : 1 ≤ szL xs := by
  cases xs <;> simp [szL] <;> omega

theorem szF_pos (fs : List (String × Json)) : 1 ≤ szF fs := by
  cases fs <;> simp [szF] <;> omega

theorem intToChars_head (i : Int) :
    ∃ c t, intToChars i = c :: t ∧ (c.isDigit = true ∨ c = '-') := by
  unfold intToChars
  by_cases h : i < 0
  · exact ⟨'-', natToChars i.natAbs, by rw [if_pos h], Or.inr rfl⟩
  · obtain ⟨m, t, ht⟩ := natToChars_head i.natAbs
    exact ⟨digitChar m, t, by rw [if_neg h, ht], Or.inl (digitChar_isDigit m)⟩

theorem prettyChars_head (ind : Nat) (v : Json) :
    ∃ c t, prettyChars ind v = c :: t ∧ isWsChar c = false ∧
      c ≠ ']' ∧ c ≠ '\x7d' ∧ c ≠ ',' := by
  cases v with
  | null => exact ⟨'n', _, rfl, by decide, by decide, by decide, by decide⟩
  | bool b =>
      cases b
      · exact ⟨'f', _, rfl, by decide, by decide, by decide, by decide⟩
      · exact ⟨'t', _, rfl, by decide, by decide, by decide, by decide⟩
  | num n =>
      obtain ⟨c, t, ht, hc⟩ := intToChars_head n
      refine ⟨c, t, by rw [prettyChars, ht], ?_, ?_, ?_, ?_⟩
      · rcases hc with h | h
        · exact isDigit_not_ws h
        · subst h; decide
      · rcases hc with h | h
        · exact isDigit_ne h (by decide)
        · subst h; decide
      · rcases hc with h | h
        · exact isDigit_ne h (by decide)
        · subst h; decide
      · rcases hc with h | h
        · exact isDigit_ne h (by decide)
        · subst h; decide
  | str s => exact ⟨'"', _, rfl, by decide, by decide, by decide, by decide⟩
  | arr xs =>
      cases xs
      · exact ⟨'[', _, rfl, by decide, by decide, by decide, by decide⟩
      · exact ⟨'[', _, rfl, by decide, by decide, by decide, by decide⟩
  | obj fs =>
      rcases fs with _ | ⟨⟨k, w⟩, fs⟩
      · exact ⟨'\x7b', _, rfl, by decide, by decide, by decide, by decide⟩
      · exact ⟨'\x7b', _, rfl, by decide, by decide, by decide, by decide⟩

theorem headIsDigit_arrTail (ind : Nat) (xs : List Json) (r : List Char) :
    headIsDigit (prettyArrTail ind xs ++ r) = false := by
  cases xs <;> simp [prettyArrTail, headIsDigit]

theorem headIsDigit_objTail (ind : Nat) (fs : List (String × Json)) (r : List Char) :
    headIsDigit (prettyObjTail ind fs ++ r) = false := by
  rcases fs with _ | ⟨⟨k, v⟩, fs⟩ <;> simp [prettyObjTail, headIsDigit]

theorem skipWs_pretty (ind : Nat) (v : Json) (r : List Char) :
    skipWs (prettyChars ind v ++ r) = prettyChars ind v ++ r := by
  obtain ⟨c, t, ht, hws, _, _, _⟩ := prettyChars_head ind v
  rw [ht, List.cons_append, skipWs_cons_of_not_ws hws]

theorem skipWs_pretty_block (m ind : Nat) (v : Json) (r : List Char) :
    skipWs ('\n' :: (spaces m ++ (prettyChars ind v ++ r))) =
      prettyChars ind v ++ r := by
  rw [skipWs_newline, skipWs_spaces_append, skipWs_pretty]

theorem skipWs_quote_block (m : Nat) (k : String) (r : List Char) :
    skipWs ('\n' :: (spaces m ++ (quoteStr k ++ r))) = quoteStr k ++ r := by
  rw [skipWs_newline, skipWs_spaces_append, quoteStr]
  simp only [List.cons_append, List.append_assoc]
  rw [skipWs_cons_of_not_ws (by decide)]

set_option maxHeartbeats 1000000 in
theorem parsePretty : ∀ fuel : Nat,
    (∀ (v : Json) (ind : Nat) (rest cs : List Char), szJ v ≤ fuel →
      headIsDigit rest = false →
      skipWs cs = prettyChars ind v ++ rest →
      parseV fuel cs = some (v, rest)) ∧
    (∀ (x : Json) (xs : List Json) (ind : Nat) (rest cs : List Char),
      szL (x :: xs) ≤ fuel →
      headIsDigit rest = false →
      skipWs cs = prettyChars (ind + 2) x ++ (prettyArrTail ind xs ++ rest) →
      parseItems fuel cs = some (x :: xs, rest)) ∧
    (∀ (k : String) (w : Json) (fs : List (String × Json)) (ind : Nat)
        (rest cs : List Char),
      szF ((k, w) :: fs) ≤ fuel →
      headIsDigit rest = false →
      skipWs cs = quoteStr k ++ ':' :: ' ' ::
        (prettyChars (ind + 2) w ++ (prettyObjTail ind fs ++ rest)) →
      parseFields fuel cs = some ((k, w) :: fs, rest)) := by
  intro fuel
  induction fuel with
  | zero =>
      refine ⟨fun v _ _ _ h _ _ => absurd h (by have := szJ_pos v; omega),
        fun x xs _ _ _ h _ _ => absurd h (by have := szL_pos (x :: xs); omega),
        fun k w fs _ _ _ h _ _ => absurd h (by have := szF_pos ((k, w) :: fs); omega)⟩
  | succ fuel ih =>
      obtain ⟨ihP, ihQ, ihR⟩ := ih
      refine ⟨?_, ?_, ?_⟩
      · intro v ind rest cs hsz hdig hskip
        cases v with
        | null =>
            simp only [prettyChars, nullChars, List.cons_append] at hskip
            simp [parseV, hskip, expectChars]
        | bool b =>
            cases b <;>
              simp only [prettyChars, trueChars, falseChars, List.cons_append]
                at hskip <;>
              simp [parseV, hskip, expectChars]
        | str s =>
            simp only [prettyChars, quoteStr, List.cons_append, List.append_assoc]
              at hskip
            simp [parseV, hskip, scanStringBody_escape, string_mk_data]
        | num n =>
            by_cases hneg : n < 0
            · obtain ⟨m, t, ht⟩ := natToChars_head n.natAbs
              have hpretty : prettyChars ind (Json.num n) = '-' :: natToChars n.natAbs := by
                simp [prettyChars, intToChars, hneg]
              rw [hpretty, List.cons_append] at hskip
              have hhead : headIsDigit (natToChars n.natAbs ++ rest) = true := by
                rw [ht, List.cons_append]
                simp [headIsDigit, digitChar_isDigit]
              simp only [parseV, hskip]
              simp only [show ('-' = 'n') = False by decide,
                show ('-' = 't') = False by decide, show ('-' = 'f') = False by decide,
                show ('-' = '"') = False by decide, show ('-' = '[') = False by decide,
                show ('-' = '\x7b') = False by decide, if_false, if_true, if_pos rfl,
                iff_false, reduceIte]
              rw [hhead]
              simp [scanDigits_natToChars n.natAbs rest hdig, -Int.natCast_natAbs]
              omega
            · obtain ⟨m, t, ht⟩ := natToChars_head n.natAbs
              have hpretty : prettyChars ind (Json.num n) = natToChars n.natAbs := by
                simp [prettyChars, intToChars, hneg]
              rw [hpretty, ht, List.cons_append] at hskip
              have hd := digitChar_isDigit m
              simp only [parseV, hskip]
              rw [if_neg (isDigit_ne hd (by decide)), if_neg (isDigit_ne hd (by decide)),
                if_neg (isDigit_ne hd (by decide)), if_neg (isDigit_ne hd (by decide)),
                if_neg (isDigit_ne hd (by decide)), if_neg (isDigit_ne hd (by decide)),
                if_neg (isDigit_ne hd (by decide)), if_pos hd]
              have := scanDigits_natToChars n.natAbs rest hdig
              rw [ht, List.cons_append] at this
              simp [this, -Int.natCast_natAbs]
              omega
        | arr xs =>
            cases xs with
            | nil =>
                simp only [prettyChars, List.cons_append] at hskip
                simp [parseV, hskip, skipWs_cons_of_not_ws (show isWsChar ']' = false by decide)]
            | cons x xs =>
                simp only [prettyChars, List.cons_append, List.append_assoc] at hskip
                simp only [parseV, hskip]
                rw [skipWs_pretty_block]
                obtain ⟨c, t, ht, hws, hrb, hcb, hcm⟩ := prettyChars_head (ind + 2) x
                rw [ht, List.cons_append]
                have hq : parseItems fuel
                    (c :: (t ++ (prettyArrTail ind xs ++ rest))) = some (x :: xs, rest) := by
                  apply ihQ x xs ind rest
                  · simp only [szJ, szL] at hsz ⊢; omega
                  · exact hdig
                  · rw [skipWs_cons_of_not_ws hws, ← List.cons_append, ← ht]
                simp [hrb, hq]
        | obj fs =>
            rcases fs with _ | ⟨⟨k, w⟩, fs⟩
            · simp only [prettyChars, List.cons_append] at hskip
              simp [parseV, hskip, skipWs_cons_of_not_ws (show isWsChar '\x7d' = false by decide)]
            · simp only [prettyChars, List.cons_append, List.append_assoc] at hskip
              simp only [parseV, hskip]
              rw [skipWs_quote_block]
              have hr : parseFields fuel (quoteStr k ++ ':' :: ' ' ::
                  (prettyChars (ind + 2) w ++ (prettyObjTail ind fs ++ rest))) =
                  some ((k, w) :: fs, rest) := by
                apply ihR k w fs ind rest
                · simp only [szJ, szF] at hsz ⊢; omega
                · exact hdig
                · simp only [quoteStr, List.cons_append, List.append_assoc,
                    List.nil_append]
                  rw [skipWs_cons_of_not_ws (by decide)]
              simp only [quoteStr, List.cons_append, List.append_assoc,
                List.nil_append] at hr ⊢
              simp [hr]
      · intro x xs ind rest cs hsz hdig hskip
        have hP : parseV fuel cs = some (x, prettyArrTail ind xs ++ rest) := by
          apply ihP x (ind + 2) (prettyArrTail ind xs ++ rest) cs
          · simp only [szL] at hsz; have := szL_pos xs; omega
          · exact headIsDigit_arrTail ind xs rest
          · exact hskip
        simp only [parseItems, hP]
        cases xs with
        | nil =>
            have htl : skipWs (prettyArrTail ind [] ++ rest) = ']' :: rest := by
              simp only [prettyArrTail, List.cons_append, List.append_assoc,
                List.nil_append]
              rw [skipWs_newline, skipWs_spaces_append,
                skipWs_cons_of_not_ws (by decide)]
            rw [htl]
            simp
        | cons y ys =>
            have htl : skipWs (prettyArrTail ind (y :: ys) ++ rest) =
                ',' :: ('\n' :: (spaces (ind + 2) ++
                  (prettyChars (ind + 2) y ++ (prettyArrTail ind ys ++ rest)))) := by
              simp only [prettyArrTail, List.cons_append, List.append_assoc]
              rw [skipWs_cons_of_not_ws (by decide)]
            rw [htl]
            have hq2 : parseItems fuel ('\n' :: (spaces (ind + 2) ++
                (prettyChars (ind + 2) y ++ (prettyArrTail ind ys ++ rest)))) =
                some (y :: ys, rest) := by
              apply ihQ y ys ind rest
              · simp only [szL] at hsz ⊢; have := szJ_pos x; omega
              · exact hdig
              · exact skipWs_pretty_block _ _ _ _
            simp [hq2]
      · intro k w fs ind rest cs hsz hdig hskip
        simp only [quoteStr, List.cons_append, List.append_assoc, List.nil_append]
          at hskip
        simp only [parseFields, hskip]
        have hP : parseV fuel (' ' :: (prettyChars (ind + 2) w ++
            (prettyObjTail ind fs ++ rest))) = some (w, prettyObjTail ind fs ++ rest) := by
          apply ihP w (ind + 2) (prettyObjTail ind fs ++ rest)
          · simp only [szF] at hsz; have := szF_pos fs; omega
          · exact headIsDigit_objTail ind fs rest
          · rw [show skipWs (' ' :: (prettyChars (ind + 2) w ++
                (prettyObjTail ind fs ++ rest))) =
              skipWs (prettyChars (ind + 2) w ++ (prettyObjTail ind fs ++ rest)) from by
                simp [skipWs, isWsChar]]
            exact skipWs_pretty _ _ _
        rcases fs with _ | ⟨⟨k2, w2⟩, fs⟩
        · have htl : skipWs (prettyObjTail ind [] ++ rest) = '\x7d' :: rest := by
            simp only [prettyObjTail, List.cons_append, List.append_assoc,
              List.nil_append]
            rw [skipWs_newline, skipWs_spaces_append,
              skipWs_cons_of_not_ws (by decide)]
          simp [scanStringBody_escape, skipWs_cons_of_not_ws
            (show isWsChar ':' = false by decide), hP, htl, string_mk_data]
        · have htl : skipWs (prettyObjTail ind ((k2, w2) :: fs) ++ rest) =
              ',' :: ('\n' :: (spaces (ind + 2) ++ (quoteStr k2 ++ ':' :: ' ' ::
                (prettyChars (ind + 2) w2 ++ (prettyObjTail ind fs ++ rest))))) := by
            simp only [prettyObjTail, List.cons_append, List.append_assoc]
            rw [skipWs_cons_of_not_ws (by decide)]
          have hr2 : parseFields fuel ('\n' :: (spaces (ind + 2) ++ (quoteStr k2 ++
              ':' :: ' ' :: (prettyChars (ind + 2) w2 ++
                (prettyObjTail ind fs ++ rest))))) = some ((k2, w2) :: fs, rest) := by
            apply ihR k2 w2 fs ind rest
            · simp only [szF] at hsz ⊢; have := szJ_pos w; omega
            · exact hdig
            · rw [show ('\n' :: (spaces (ind + 2) ++ (quoteStr k2 ++ ':' :: ' ' ::
                  (prettyChars (ind + 2) w2 ++ (prettyObjTail ind fs ++ rest))))) =
                ('\n' :: (spaces (ind + 2) ++ (quoteStr k2 ++ (':' :: ' ' ::
                  (prettyChars (ind + 2) w2 ++ (prettyObjTail ind fs ++ rest)))))) from
                rfl, skipWs_quote_block]
          simp [scanStringBody_escape, skipWs_cons_of_not_ws
            (show isWsChar ':' = false by decide), hP, htl, hr2, string_mk_data]

mutual

theorem szJ_le_pretty : ∀ (ind : Nat) (v : Json), szJ v ≤ (prettyChars ind v).length + 1
  | _, .null => by simp [szJ, prettyChars, nullChars]
  | _, .bool b => by cases b <;> simp [szJ, prettyChars, trueChars, falseChars]
  | _, .num n => by simp [szJ]
  | _, .str s => by simp [szJ]
  | _, .arr [] => by simp [szJ, szL, prettyChars]
  | ind, .arr (x :: xs) => by
      have hx := szJ_le_pretty (ind + 2) x
      have hxs := szL_le_arrTail ind xs
      simp only [szJ, szL, prettyChars, List.length_cons, List.length_append,
        spaces, List.length_replicate] at hx hxs ⊢
      omega
  | _, .obj [] => by simp [szJ, szF, prettyChars]
  | ind, .obj ((k, w) :: fs) => by
      have hw := szJ_le_pretty (ind + 2) w
      have hfs := szF_le_objTail ind fs
      simp only [szJ, szF, prettyChars, List.length_cons, List.length_append,
        spaces, List.length_replicate] at hw hfs ⊢
      omega

theorem szL_le_arrTail : ∀ (ind : Nat) (xs : List Json),
    szL xs ≤ (prettyArrTail ind xs).length
  | _, [] => by simp [szL, prettyArrTail]
  | ind, y :: ys => by
      have hy := szJ_le_pretty (ind + 2) y
      have hys := szL_le_arrTail ind ys
      simp only [szL, prettyArrTail, List.length_cons, List.length_append,
        spaces, List.length_replicate] at hy hys ⊢
      omega

theorem szF_le_objTail : ∀ (ind : Nat) (fs : List (String × Json)),
    szF fs ≤ (prettyObjTail ind fs).length
  | _, [] => by simp [szF, prettyObjTail]
  | ind, (k, w) :: fs => by
      have hw := szJ_le_pretty (ind + 2) w
      have hfs := szF_le_objTail ind fs
      simp only [szF, prettyObjTail, List.length_cons, List.length_append,
        spaces, List.length_replicate] at hw hfs ⊢
      omega

end

/-- `JSON.parse` recovers every value from its pretty-printed artifact form. -/
theorem parseJson_prettyStringify (v : Json) :
    parseJson (prettyStringify v) = some v := by
  have hskip0 : skipWs (prettyChars 0 v) = prettyChars 0 v ++ [] := by
    rw [List.append_nil]
    have := skipWs_pretty 0 v []
    rwa [List.append_nil] at this
  have hmain := (parsePretty ((prettyChars 0 v).length + 1)).1 v 0 [] (prettyChars 0 v)
    (by have := szJ_le_pretty 0 v; omega) rfl hskip0
  rw [parseJson]
  rw [show (prettyStringify v).data = prettyChars 0 v from rfl]
  rw [hmain]
  simp [skipWs]

theorem szP_pos (p : Property) : 1 ≤ szP p := by
  cases p
  case rollup arr num => rcases arr with _ | items <;> simp [szP]
  all_goals simp [szP]

theorem szPL_pos (ps : List Property) : 1 ≤ szPL ps := by
  cases ps <;> simp [szPL] <;> omega

theorem extractFuel_eq : ∀ fuel : Nat,
    (∀ p : Property, szP p ≤ fuel → extractFuel fuel p = some (extractPropertyValue p)) ∧
    (∀ items : List Property, szPL items ≤ fuel →
      extractRollupFuel fuel items = some (extractRollupItems items)) := by
  intro fuel
  induction fuel with
  | zero =>
      constructor
      · intro p h
        exact absurd h (by have := szP_pos p; omega)
      · intro items h
        exact absurd h (by have := szPL_pos items; omega)
  | succ fuel ih =>
      refine ⟨?_, ?_⟩
      · intro p hsz
        cases p
        case rollup arr num =>
          rcases arr with _ | items
          · simp [extractFuel, extractPropertyValue, extractNonRec]
          · have h2 := ih.2 items (by simp only [szP] at hsz; omega)
            simp [extractFuel, extractPropertyValue, h2]
        case date d =>
            rcases d with _ | dv <;> simp [extractFuel, extractPropertyValue, extractNonRec]
        case formula f =>
            rcases f with s | n | b | d | tag
            case fdate =>
              rcases d with _ | dv <;>
                simp [extractFuel, extractPropertyValue, extractNonRec]
            all_goals simp [extractFuel, extractPropertyValue, extractNonRec]
        all_goals simp [extractFuel, extractPropertyValue, extractNonRec]
      · intro items hsz
        cases items with
        | nil => simp [extractRollupFuel, extractRollupItems]
        | cons item rest =>
            have hi : szP item ≤ fuel := by
              simp only [szPL] at hsz; have := szPL_pos rest; omega
            have hr : szPL rest ≤ fuel := by
              simp only [szPL] at hsz; have := szP_pos item; omega
            have hrest := ih.2 rest hr
            cases item <;>
              simp [extractRollupFuel, extractRollupItems, hrest, ih.1 _ hi]

theorem jsStrOrNull_shape (s : String) :
    isScalarOrArrayOrNull (jsStrOrNull s) = true := by
  unfold jsStrOrNull; split <;> rfl

theorem jsOptStrOrNull_shape (s : Option String) :
    isScalarOrArrayOrNull (jsOptStrOrNull s) = true := by
  cases s
  · rfl
  · exact jsStrOrNull_shape _

theorem jsNum_shape (n : Option Int) : isScalarOrArrayOrNull (jsNum n) = true := by
  cases n <;> rfl

theorem jsNumOrNull_shape (n : Option Int) :
    isScalarOrArrayOrNull (jsNumOrNull n) = true := by
  cases n
  · rfl
  · simp only [jsNumOrNull]
    split <;> rfl

theorem extract_shape (p : Property) :
    isScalarOrArrayOrNull (extractPropertyValue p) = true := by
  cases p
  case rollup arr num =>
    rcases arr with _ | items
    · exact jsNumOrNull_shape _
    · rfl
  case date d =>
    rcases d with _ | dv
    · rfl
    · exact jsStrOrNull_shape _
  case formula f =>
    rcases f with s | n | b | d | tag
    · exact jsOptStrOrNull_shape _
    · exact jsNum_shape _
    · rfl
    · rcases d with _ | dv
      · rfl
      · exact jsStrOrNull_shape _
    · rfl
  case title texts => exact jsStrOrNull_shape _
  case rich_text texts => exact jsStrOrNull_shape _
  case number n => exact jsNum_shape _
  case select s => exact jsOptStrOrNull_shape _
  case multi_select l => rfl
  case checkbox b => rfl
  case url u => exact jsOptStrOrNull_shape _
  case email e => exact jsOptStrOrNull_shape _
  case phone_number pp => exact jsOptStrOrNull_shape _
  case status s => exact jsOptStrOrNull_shape _
  case relation ids => rfl
  case created_time t => exact jsStrOrNull_shape _
  case last_edited_time t => exact jsStrOrNull_shape _
  case created_by i => exact jsStrOrNull_shape _
  case last_edited_by i => exact jsStrOrNull_shape _
  case people ids => rfl
  case files fs => rfl
  case unknown tag => rfl

/-! ## The claims -/

theorem getKey_setKey (ev : List (String × Json)) (key q : String) (v : Json) :
    getKey (setKey ev key v) q = if key = q then some v else getKey ev q := by
  induction ev with
  | nil => simp [setKey, getKey]
  | cons kw rest ih =>
      obtain ⟨k, w⟩ := kw
      simp only [setKey]
      by_cases hk : k = key
      · rw [if_pos hk]
        subst hk
        by_cases hq : k = q <;> simp [getKey, hq]
      · rw [if_neg hk]
        by_cases hq : k = q
        · have hkeyq : ¬key = q := fun h => hk (hq.trans h.symm)
          simp [getKey, hq, hkeyq]
        · simp [getKey, hq, ih]

theorem getKey_delKey (ev : List (String × Json)) (key q : String) :
    getKey (delKey ev key) q = if key = q then none else getKey ev q := by
  induction ev with
  | nil => simp [delKey, getKey]
  | cons kw rest ih =>
      obtain ⟨k, w⟩ := kw
      simp only [delKey]
      by_cases hk : k = key
      · rw [if_pos hk]
        subst hk
        by_cases hq : k = q
        · subst hq
          simp [getKey, ih]
        · simp [getKey, hq, ih]
      · rw [if_neg hk]
        by_cases hq : k = q
        · have hkeyq : ¬key = q := fun h => hk (hq.trans h.symm)
          simp [getKey, hq, hkeyq]
        · simp [getKey, hq, ih]

theorem buildEvent_go_excluded (excluded : List String) (q : String)
    (hq : q ∈ excluded) :
    ∀ (props : List (String × Property)) (acc : List (String × Json)),
      getKey acc q = none →
      getKey (props.foldl
        (fun ev kp =>
          if kp.1 ∈ excluded then ev
          else
            let value := extractPropertyValue kp.2
            if isNotNull value then setKey ev kp.1 value else ev)
        acc) q = none := by
  intro props
  induction props with
  | nil => intro acc hacc; simpa using hacc
  | cons kp rest ih =>
      intro acc hacc
      obtain ⟨k, p⟩ := kp
      simp only [List.foldl_cons]
      by_cases hin : k ∈ excluded
      · simpa [hin] using ih acc hacc
      · have hkq : ¬k = q := fun h => hin (h ▸ hq)
        by_cases hval : isNotNull (extractPropertyValue p)
        · refine Eq.trans ?_ (ih (setKey acc k (extractPropertyValue p)) ?_)
          · simp [hin, hval]
          · simp [getKey_setKey, hacc, hkq]
        · simpa [hin, hval] using ih acc hacc

theorem buildEvent_excluded (excluded : List String) (q : String)
    (props : List (String × Property)) (hq : q ∈ excluded) :
    getKey (buildEvent excluded props) q = none :=
  buildEvent_go_excluded excluded q hq props [] rfl

theorem addDatePretty_getKey_ne (intl : Json → String) (ev : List (String × Json))
    (q : String) (hq : q ≠ "datePretty") :
    getKey (addDatePretty intl ev) q = getKey ev q := by
  have hne : ¬("datePretty" = q) := fun h => hq h.symm
  unfold addDatePretty
  by_cases h1 : otruthy (getKey ev "Date") <;>
    simp only [h1, if_true, if_false] <;>
    split <;> (try split) <;> simp_all [getKey_setKey, hne]

/-- C1 (counterexample): the `mapEvent` of `scripts/fetch-events-from-notion.mjs`
does NOT exclude the venue name: mapping a record carrying a `Place Name`
rich-text field produces an event that still contains that key, so the claim
as stated is false for this mapper. -/
theorem c1_counterexample :
    getKey (FetchEvents.mapEvent intlDemo pageVenue) "Place Name" =
      some (Json.str "Secret Cafe") := rfl

/-- C1 (amended): the `mapEvent` of the unnamed fetch variant produces events
containing none of the four excluded keys (`Location`, `Place Name`,
`Place Link`, `Visible on site`); the `mapEvent` of
`scripts/fetch-events-from-notion.mjs` guarantees only the absence of
`Location` and `Visible on site`. -/
theorem c1_mapper_exclusions :
    (∀ (intl : Json → String) (page : Page) (k : String),
      k ∈ FetchSync.excludedProperties →
      getKey (FetchSync.mapEvent intl page) k = none) ∧
    (∀ (intl : Json → String) (page : Page) (k : String),
      k ∈ FetchEvents.excludedProperties →
      getKey (FetchEvents.mapEvent intl page) k = none) := by
  constructor
  · intro intl page k hk
    have hdp : k ≠ "datePretty" := by
      rcases (by simpa [FetchSync.excludedProperties] using hk :
          k = "Location" ∨ k = "Place Name" ∨ k = "Place Link" ∨
            k = "Visible on site") with rfl | rfl | rfl | rfl <;> decide
    unfold FetchSync.mapEvent
    rw [addDatePretty_getKey_ne _ _ _ hdp]
    simp only [getKey_delKey]
    split
    · rfl
    · split
      · rfl
      · split
        · rfl
        · exact buildEvent_excluded _ _ _ hk
  · intro intl page k hk
    have hdp : k ≠ "datePretty" := by
      rcases (by simpa [FetchEvents.excludedProperties] using hk :
          k = "Location" ∨ k = "Visible on site") with rfl | rfl <;> decide
    unfold FetchEvents.mapEvent
    rw [addDatePretty_getKey_ne _ _ _ hdp]
    exact buildEvent_excluded _ _ _ hk

/-- C1 (witness): the amended theorem at a concrete record carrying a
`Place Name` field, mapped by the unnamed variant. -/
theorem c1_witness :
    getKey (FetchSync.mapEvent intlDemo pageVenue) "Place Name" = none :=
  c1_mapper_exclusions.1 intlDemo pageVenue "Place Name" (by decide)

theorem otruthy_jsOr (a b : Option Json) :
    otruthy (jsOr a b) = (otruthy a || otruthy b) := by
  by_cases h : otruthy a <;> simp [jsOr, h]

theorem otruthy_jsAnd (a b : Option Json) :
    otruthy (jsAnd a b) = (otruthy a && otruthy b) := by
  by_cases h : otruthy a <;> simp [jsAnd, h]

/-- C2 (amended): an event appears in the published collection iff it is in
the mapped list and its name field (`Name` or `name`) and date field (`Date`
or `date`) are both present with JavaScript-truthy values. -/
theorem c2_filter_characterization :
    ∀ (events : List (List (String × Json))) (e : List (String × Json)),
      e ∈ validEvents events ↔
        e ∈ events ∧
          ((otruthy (getKey e "Name") = true ∨ otruthy (getKey e "name") = true) ∧
           (otruthy (getKey e "Date") = true ∨ otruthy (getKey e "date") = true)) := by
  intro events e
  simp [validEvents, List.mem_filter, isValidEvent, otruthy_jsAnd, otruthy_jsOr]

/-- C2 (counterexample): a mapped event whose `Name` field is present but
holds the falsy number 0 (a number-typed Notion property) also has a `Date`
field, yet is dropped from the published collection — the filter tests
JavaScript truthiness, not presence, so the claim's iff fails. -/
theorem c2_counterexample :
    getKey (FetchEvents.mapEvent intlDemo pageZeroName) "Name" = some (Json.num 0) ∧
    getKey (FetchEvents.mapEvent intlDemo pageZeroName) "Date" =
      some (Json.str "2025-01-01") ∧
    validEvents [FetchEvents.mapEvent intlDemo pageZeroName] = [] :=
  ⟨rfl, rfl, rfl⟩

/-- C3: the run writes the output artifact iff no previous digest exists or
the two digests differ; with no prior artifact it always publishes, and with
equal digests it skips (exit 0, artifact untouched).  The hypothesis records
that a present previous digest is a nonempty string, as every SHA-256 hex
digest is. -/
theorem c3_change_detector :
    ∀ (newHash : String) (existingHash : Option String),
      (∀ h, existingHash = some h → h ≠ "") →
      ((syncAction newHash existingHash = SyncAction.writeArtifact ↔
          existingHash = none ∨ existingHash ≠ some newHash) ∧
       (existingHash = none →
          syncAction newHash existingHash = SyncAction.writeArtifact) ∧
       (existingHash = some newHash →
          syncAction newHash existingHash = SyncAction.skipUnchanged)) := by
  intro n e hne
  cases e with
  | none => simp [syncAction, jsTruthyOptStr]
  | some h =>
      have hh : h ≠ "" := hne h rfl
      by_cases heq : n = h
      · subst heq
        simp [syncAction, jsTruthyOptStr, hh]
      · simp [syncAction, jsTruthyOptStr, hh, heq, Ne.symm heq]

/-- C3 (witness): the change-detector decision at concrete digests. -/
theorem c3_witness :
    syncAction "aa" (some "bb") = SyncAction.writeArtifact ∧
    syncAction "aa" (some "aa") = SyncAction.skipUnchanged ∧
    syncAction "aa" none = SyncAction.writeArtifact :=
  ⟨(c3_change_detector "aa" (some "bb") (by intro x hx; cases hx; decide)).1.mpr
      (Or.inr (by simp)),
   (c3_change_detector "aa" (some "aa") (by intro x hx; cases hx; decide)).2.2 rfl,
   (c3_change_detector "aa" none (by intro x hx; cases hx)).2.1 rfl⟩

/-- C4 (counterexample): a present artifact whose content does not parse
makes `getExistingEventsHash` re-throw (only `ENOENT` is treated as "no
previous fingerprint"), so the run aborts instead of continuing — the claim
as stated is false. -/
theorem c4_counterexample :
    getExistingEventsHash shaDemo (some "not json") =
      Except.error JsErr.syntaxError ∧
    syncActionFromFile shaDemo (some "not json") "h" =
      Except.error JsErr.syntaxError :=
  ⟨rfl, rfl⟩

/-- C4 (amended): absence of the artifact file is treated as "no previous
fingerprint" and the run continues and publishes; a parse failure of its
content is re-thrown and aborts the run with an error. -/
theorem c4_fingerprint_read (sha : String → String) :
    getExistingEventsHash sha none = Except.ok none ∧
    (∀ n, syncActionFromFile sha none n = Except.ok SyncAction.writeArtifact) ∧
    (∀ s, parseJson s = none →
      getExistingEventsHash sha (some s) = Except.error JsErr.syntaxError) := by
  refine ⟨rfl, fun n => rfl, fun s hs => ?_⟩
  simp [getExistingEventsHash, hs]

/-- C4 (witness): the amended theorem at a concrete hash function, for the
missing-file case and a concrete unparsable content. -/
theorem c4_witness :
    getExistingEventsHash shaDemo none = Except.ok none ∧
    getExistingEventsHash shaDemo (some "oops") = Except.error JsErr.syntaxError :=
  ⟨(c4_fingerprint_read shaDemo).1, (c4_fingerprint_read shaDemo).2.2 "oops" rfl⟩

/-- C9: writing a collection as pretty-printed JSON and re-computing its
digest via the artifact-hash path (read, `JSON.parse`, hash the compact
re-serialization) yields the same digest as hashing the collection in memory
before writing. -/
theorem c9_roundtrip_digest (sha : String → String) (events : Json) :
    getExistingEventsHash sha (some (prettyStringify events)) =
      Except.ok (some (computeEventsHash sha events)) := by
  simp [getExistingEventsHash, parseJson_prettyStringify]

/-- C10: the property extractor terminates on every finite property value —
a fuel-bounded evaluator with fuel equal to the property's structural size
already reaches the recursive extractor's value, however deeply rollup
arrays nest — it always returns a scalar, an array, or null (never a bare
object), and every unrecognized type tag yields null. -/
theorem c10_extractor_total : ∀ p : Property,
    (∃ n, extractFuel n p = some (extractPropertyValue p)) ∧
    isScalarOrArrayOrNull (extractPropertyValue p) = true ∧
    (∀ tag, extractPropertyValue (Property.unknown tag) = Json.null) :=
  fun p =>
    ⟨⟨szP p, (extractFuel_eq (szP p)).1 p le_rfl⟩, extract_shape p, fun _ => rfl⟩

/-- C5 (amended): the staleness checker exits 0 (sync needed) iff the
checkpoint is absent or falsy, the remote timestamp is unavailable or falsy,
the date-passed scan signals true, or the remote timestamp is strictly newer
than the checkpoint TRUNCATED TO START OF DAY (the scripts variant truncates
`lastSyncDate` before comparing); the unnamed variant compares the exact
timestamps and has no scan. -/
theorem c5_staleness_decision :
    (∀ (parseDate : String → Option Int) (truncDay : Int → Int)
        (cp db : Option String) (scan : Bool),
      CheckUpdates.exitCode parseDate truncDay cp db scan = 0 ↔
        cp = none ∨ cp = some "" ∨ db = none ∨ db = some "" ∨ scan = true ∨
        (∃ ts dbts, cp = some ts ∧ db = some dbts ∧
          jsLtOpt ((parseDate ts).map truncDay) (parseDate dbts) = true)) ∧
    (∀ (parseDate : String → Option Int) (cp db : Option String),
      CheckUpdatesV0.exitCode parseDate cp db = 0 ↔
        cp = none ∨ cp = some "" ∨ db = none ∨ db = some "" ∨
        (∃ ts dbts, cp = some ts ∧ db = some dbts ∧
          jsLeOpt (parseDate dbts) (parseDate ts) = false)) := by
  constructor
  · intro pd td cp db scan
    cases cp with
    | none => simp [CheckUpdates.exitCode, CheckUpdates.checkIfFetchNeeded]
    | some ts =>
        by_cases hts : ts = ""
        · subst hts
          simp [CheckUpdates.exitCode, CheckUpdates.checkIfFetchNeeded]
        · cases db with
          | none =>
              simp [CheckUpdates.exitCode, CheckUpdates.checkIfFetchNeeded, hts]
          | some dbts =>
              by_cases hdb : dbts = ""
              · subst hdb
                simp [CheckUpdates.exitCode, CheckUpdates.checkIfFetchNeeded, hts]
              · by_cases hlt : jsLtOpt ((pd ts).map td) (pd dbts) = true
                · simp [CheckUpdates.exitCode, CheckUpdates.checkIfFetchNeeded,
                    hts, hdb, hlt]
                · cases scan <;>
                    simp [CheckUpdates.exitCode, CheckUpdates.checkIfFetchNeeded,
                      hts, hdb, hlt]
  · intro pd cp db
    cases cp with
    | none => simp [CheckUpdatesV0.exitCode, CheckUpdatesV0.checkIfFetchNeeded]
    | some ts =>
        by_cases hts : ts = ""
        · subst hts
          simp [CheckUpdatesV0.exitCode, CheckUpdatesV0.checkIfFetchNeeded]
        · cases db with
          | none =>
              simp [CheckUpdatesV0.exitCode, CheckUpdatesV0.checkIfFetchNeeded, hts]
          | some dbts =>
              by_cases hdb : dbts = ""
              · subst hdb
                simp [CheckUpdatesV0.exitCode, CheckUpdatesV0.checkIfFetchNeeded, hts]
              · by_cases hle : jsLeOpt (pd dbts) (pd ts) = true
                · simp [CheckUpdatesV0.exitCode, CheckUpdatesV0.checkIfFetchNeeded,
                    hts, hdb, hle]
                · simp [CheckUpdatesV0.exitCode, CheckUpdatesV0.checkIfFetchNeeded,
                    hts, hdb, hle]

/-- C5 (counterexample): checkpoint 2025-06-10T12:00Z, remote last edited
2025-06-10T06:00Z (not strictly newer than the checkpoint), scan false — the
claim requires exit 1 (skip), but the checker exits 0 because the remote
timestamp is newer than the checkpoint truncated to start of day. -/
theorem c5_counterexample :
    CheckUpdates.exitCode parseDemo truncUTC (some "2025-06-10T12:00:00.000Z")
      (some "2025-06-10T06:00:00.000Z") false = 0 ∧
    jsLtOpt (parseDemo "2025-06-10T12:00:00.000Z")
      (parseDemo "2025-06-10T06:00:00.000Z") = false := by
  constructor <;> decide

theorem updateCalls_cons (pd : String → Option Int) (td : Int → Int) (now : Int)
    (q : Page) (rest : List Page) :
    FetchSync.updateCalls pd td now (q :: rest) =
      (if FetchSync.isPastDue pd td now q then
        [(⟨q.id, "Past"⟩ : FetchSync.UpdateCall)] else []) ++
        FetchSync.updateCalls pd td now rest := by
  simp only [FetchSync.updateCalls, List.filterMap_cons]
  split <;> simp_all

theorem updateCalls_filter_id_nil (pd : String → Option Int) (td : Int → Int)
    (now : Int) (pid : String) :
    ∀ pages : List Page, (pages.map Page.id).count pid = 0 →
      (FetchSync.updateCalls pd td now pages).filter
        (fun c => c.pageId == pid) = [] := by
  intro pages
  induction pages with
  | nil => intro h; simp [FetchSync.updateCalls]
  | cons q rest ih =>
      intro h
      simp only [List.map_cons, List.count_cons] at h
      have hpq : ¬(pid = q.id) := by
        intro hb
        rw [if_pos (by simp [hb])] at h
        omega
      have hrest : (rest.map Page.id).count pid = 0 := by
        rw [if_neg (by simp only [beq_iff_eq]; exact fun hb => hpq hb.symm)] at h
        omega
      rw [updateCalls_cons, List.filter_append, ih hrest, List.append_nil]
      have hqp : (q.id == pid) = false := by
        rw [beq_eq_false_iff_ne]
        exact fun hb => hpq hb.symm
      by_cases hp : FetchSync.isPastDue pd td now q
      · simp [hp, hqp]
      · simp [hp]

/-- C6: for every fetched record (the query returns exactly the records
flagged visible with status Upcoming) whose id occurs once and whose date
parses: if its date truncated to start of day is strictly before truncated
now, exactly one update call targets it with status "Past"; otherwise no
call targets it. -/
theorem c6_status_updates :
    ∀ (parseDate : String → Option Int) (truncDay : Int → Int) (now : Int)
      (pages : List Page) (p : Page) (s : String) (t : Int),
      p ∈ pages →
      (pages.map Page.id).count p.id = 1 →
      datePropStart p = some s →
      parseDate s = some t →
      ((truncDay t < truncDay now →
          (FetchSync.updateCalls parseDate truncDay now pages).filter
            (fun c => c.pageId == p.id) =
            [(⟨p.id, "Past"⟩ : FetchSync.UpdateCall)]) ∧
       (¬truncDay t < truncDay now →
          (FetchSync.updateCalls parseDate truncDay now pages).filter
            (fun c => c.pageId == p.id) = [])) := by
  intro pd td now pages p s t hmem hcount hds hpd
  have hpast : FetchSync.isPastDue pd td now p = decide (td t < td now) := by
    simp [FetchSync.isPastDue, hds, hpd]
  induction pages with
  | nil => cases hmem
  | cons q rest ih =>
      rw [updateCalls_cons, List.filter_append]
      simp only [List.map_cons, List.count_cons] at hcount
      rcases List.mem_cons.mp hmem with heq | hmem'
      · subst heq
        rw [if_pos (by simp)] at hcount
        have hrest0 : (rest.map Page.id).count p.id = 0 := by omega
        have hfil := updateCalls_filter_id_nil pd td now p.id rest hrest0
        rw [hfil]
        constructor
        · intro hlt
          have : FetchSync.isPastDue pd td now p = true := by
            rw [hpast]; exact decide_eq_true hlt
          simp [this]
        · intro hlt
          have : FetchSync.isPastDue pd td now p = false := by
            rw [hpast]; exact decide_eq_false hlt
          simp [this]
      · have hclt : 1 ≤ (rest.map Page.id).count p.id :=
          List.one_le_count_iff.mpr (List.mem_map_of_mem Page.id hmem')
        have hqp : ¬(q.id = p.id) := by
          intro hb
          rw [if_pos (by simp [hb])] at hcount
          omega
        have hcount' : (rest.map Page.id).count p.id = 1 := by
          rw [if_neg (by simp only [beq_iff_eq]; exact hqp)] at hcount
          omega
        have hqpb : (q.id == p.id) = false := by
          rw [beq_eq_false_iff_ne]; exact hqp
        have htail := ih hmem' hcount'
        constructor
        · intro hlt
          rw [(htail.1 hlt :)]
          by_cases hp : FetchSync.isPastDue pd td now q <;> simp [hp, hqpb]
        · intro hlt
          rw [(htail.2 hlt :)]
          by_cases hp : FetchSync.isPastDue pd td now q <;> simp [hp, hqpb]

/-- C6 (witness): the theorem at a concrete pair of records, one past-due
and one future-dated. -/
theorem c6_witness :
    (FetchSync.updateCalls parseDates truncUTC nowDemo [pagePast, pageFuture]).filter
      (fun c => c.pageId == pagePast.id) =
      [(⟨pagePast.id, "Past"⟩ : FetchSync.UpdateCall)] ∧
    (FetchSync.updateCalls parseDates truncUTC nowDemo [pagePast, pageFuture]).filter
      (fun c => c.pageId == pageFuture.id) = [] :=
  ⟨(c6_status_updates parseDates truncUTC nowDemo [pagePast, pageFuture] pagePast
      "2000-01-05T10:00:00.000Z" 947066400000
      (by simp) (by decide) rfl rfl).1 (by decide),
   (c6_status_updates parseDates truncUTC nowDemo [pagePast, pageFuture] pageFuture
      "2099-01-01T10:00:00.000Z" 4070944800000
      (by simp) (by decide) rfl rfl).2 (by decide)⟩

theorem updateCalls_eq_filter_map (pd : String → Option Int) (td : Int → Int)
    (now : Int) :
    ∀ pages : List Page,
      FetchSync.updateCalls pd td now pages =
        (pages.filter (FetchSync.isPastDue pd td now)).map fun p =>
          (⟨p.id, "Past"⟩ : FetchSync.UpdateCall) := by
  intro pages
  induction pages with
  | nil => simp [FetchSync.updateCalls]
  | cons q rest ih =>
      rw [updateCalls_cons]
      by_cases h : FetchSync.isPastDue pd td now q <;> simp [h, ih]

/-- C7 (amended): the status reconciliation returns a boolean — whether at
least one record was successfully updated — computed from an internal count
of successes; each record's failed update call is caught by its own
`.catch`, counted as not-updated, and never aborts the other updates or the
run (the result is total in `api` and equals the spec-modelled success count
turned into a boolean). -/
theorem c7_reconcile_result :
    ∀ (parseDate : String → Option Int) (truncDay : Int → Int) (now : Int)
      (pages : List Page) (api : String → Except String Unit),
      FetchSync.updateEventStatusesResult parseDate truncDay now pages api =
        FetchSync.JsVal.bool
          (decide (0 < FetchSync.reconcileStatusesSpecCount parseDate truncDay
            now pages api)) := by
  intro pd td now pages api
  unfold FetchSync.updateEventStatusesResult FetchSync.reconcileStatusesSpecCount
  rw [updateCalls_eq_filter_map]
  dsimp only
  rw [List.map_map]
  congr 2
  induction (pages.filter (FetchSync.isPastDue pd td now)) with
  | nil => simp
  | cons q rest ih =>
      simp only [List.map_cons, List.count_cons, List.countP_cons, ih]
      cases hq : api q.id <;> simp [hq]

/-- C7 (counterexample): with two past-due records whose updates both
succeed, the function returns the boolean `updatedCount > 0`, not the count
2 — the claim's "returns the count of records successfully updated" is
false. -/
theorem c7_counterexample :
    FetchSync.reconcileStatusesSpecCount parseDates truncUTC nowDemo
      [pagePast, pagePastB] apiOk = 2 ∧
    FetchSync.updateEventStatusesResult parseDates truncUTC nowDemo
      [pagePast, pagePastB] apiOk ≠
      FetchSync.JsVal.num (FetchSync.reconcileStatusesSpecCount parseDates truncUTC
        nowDemo [pagePast, pagePastB] apiOk) := by
  constructor
  · decide
  · decide

theorem fetchAllPages_loop (batches : List (List Page)) :
    ∀ (fuel : Nat) (c : Option Nat) (acc : List Page),
      batches.length - c.getD 0 < fuel →
      FetchSync.fetchAllPages (FetchSync.queryBatches batches) fuel true c acc =
        some (acc ++ (batches.drop (c.getD 0)).flatten) := by
  intro fuel
  induction fuel with
  | zero => intro c acc h; omega
  | succ fuel ih =>
      intro c acc h
      rw [FetchSync.fetchAllPages]
      by_cases hi : c.getD 0 + 1 < batches.length
      · have hlt : c.getD 0 < batches.length := by omega
        simp only [FetchSync.queryBatches, hi, decide_True, if_true]
        rw [ih (some (c.getD 0 + 1)) (acc ++ batches.getD (c.getD 0) [])
          (by simp; omega)]
        rw [List.getD_eq_getElem batches [] hlt]
        have hdrop : (List.drop (c.getD 0) batches).flatten =
            batches[c.getD 0] ++ (List.drop (c.getD 0 + 1) batches).flatten := by
          rw [List.drop_eq_getElem_cons hlt, List.flatten_cons]
        rw [hdrop]
        simp
      · simp only [FetchSync.queryBatches, hi, decide_False, if_false]
        rw [show FetchSync.fetchAllPages (FetchSync.queryBatches batches) fuel false
            none (acc ++ batches.getD (c.getD 0) []) =
          some (acc ++ batches.getD (c.getD 0) []) from by
            cases fuel <;> rfl]
        by_cases hlen : c.getD 0 < batches.length
        · rw [List.getD_eq_getElem batches [] hlen,
            List.drop_eq_getElem_cons hlen,
            List.drop_eq_nil_of_le (by omega)]
          simp
        · rw [List.getD_eq_default batches [] (by omega),
            List.drop_eq_nil_of_le (by omega)]
          simp

/-- C8 (amended): the status updater's query loops on the cursor, one page
awaited before the next, until no cursor remains, and retrieves all batches;
the main visible-events query issues a single request and uses only its
first page of results. -/
theorem c8_pagination :
    (∀ batches : List (List Page),
      FetchSync.fetchAllPagesRun (FetchSync.queryBatches batches)
        (batches.length + 1) = some batches.flatten) ∧
    (∀ batches : List (List Page),
      FetchEvents.queryVisibleEventsOnce (FetchSync.queryBatches batches) =
        batches.headD []) := by
  constructor
  · intro batches
    unfold FetchSync.fetchAllPagesRun
    rw [fetchAllPages_loop batches (batches.length + 1) none [] (by simp)]
    simp
  · intro batches
    cases batches <;>
      simp [FetchEvents.queryVisibleEventsOnce, FetchSync.queryBatches]

/-- C8 (counterexample): on a store returning two batches, the main
visible-events query of `fetchAndWriteEvents` uses a single request and
yields only the first batch — not all matching records — so the claim's
"every remote record query ... is paginated" is false. -/
theorem c8_counterexample :
    FetchEvents.queryVisibleEventsOnce (FetchSync.queryBatches [[pgA], [pgB]]) =
      [pgA] ∧
    [[pgA], [pgB]].flatten = [pgA, pgB] ∧
    (FetchEvents.queryVisibleEventsOnce
        (FetchSync.queryBatches [[pgA], [pgB]])).length ≠
      [[pgA], [pgB]].flatten.length :=
  ⟨rfl, rfl, by decide⟩
